import Mathlib

/-!
Shallow embedding of the verification-code generator (`src/verification.py`)
and of the submission pipeline (`src/app.py`) of the Systesys-Http-Forms
repository, together with proofs of the frozen claims about them.

Strings are modelled as `List Char`; Python code points used by the hash are
modelled as `List Nat` so that lone surrogates (which Python strings may
contain but Lean `Char` cannot) are representable.

Modelling scope for the Unicode tables used by `normalize`:
the source calls `unicodedata.normalize("NFD", s)` and `str.upper()`, whose
full tables cover all of Unicode.  The embedding fixes them to explicit
tables: canonical decomposition is given for the Latin-1 precomposed letters
(the full set whose decomposition is a base letter plus a combining mark in
U+0300..U+036F), and uppercasing is the ASCII mapping (Lean core
`Char.toUpper`, which is exactly Python `str.upper` restricted to ASCII).
Characters outside these tables are modelled as canonically stable and
case stable.  Canonical reordering of multiple adjacent combining marks is
not modelled.  Python `str.split`/`str.strip` whitespace is the exact
Unicode whitespace set Python uses.
-/

namespace Forms

/-- Code points Python treats as whitespace for `str.split()` / `str.strip()`. -/
def pyWhitespaceCodes : List Nat :=
  [9, 10, 11, 12, 13, 28, 29, 30, 31, 32, 0x85, 0xA0, 0x1680,
   0x2000, 0x2001, 0x2002, 0x2003, 0x2004, 0x2005, 0x2006, 0x2007,
   0x2008, 0x2009, 0x200A, 0x2028, 0x2029, 0x202F, 0x205F, 0x3000]

/-- Whether a character is Python whitespace. -/
def isPySpace (c : Char) : Bool := pyWhitespaceCodes.contains c.toNat

/-- The combining diacritical marks removed by `re.sub(r"[̀-ͯ]", "", s)`
in `normalize` (verification.py line 11). -/
def isCombining (c : Char) : Bool := decide (0x300 ≤ c.toNat) && decide (c.toNat ≤ 0x36F)

/-- Canonical (NFD) decompositions used by `unicodedata.normalize("NFD", s)`
(verification.py line 10), restricted to the Latin-1 precomposed letters; see
the module comment for the modelling scope. -/
def nfdTable : List (Char × List Char) :=
  [('À', ['A', '̀']), ('Á', ['A', '́']), ('Â', ['A', '̂']),
   ('Ã', ['A', '̃']), ('Ä', ['A', '̈']), ('Å', ['A', '̊']),
   ('Ç', ['C', '̧']), ('È', ['E', '̀']), ('É', ['E', '́']),
   ('Ê', ['E', '̂']), ('Ë', ['E', '̈']), ('Ì', ['I', '̀']),
   ('Í', ['I', '́']), ('Î', ['I', '̂']), ('Ï', ['I', '̈']),
   ('Ñ', ['N', '̃']), ('Ò', ['O', '̀']), ('Ó', ['O', '́']),
   ('Ô', ['O', '̂']), ('Õ', ['O', '̃']), ('Ö', ['O', '̈']),
   ('Ù', ['U', '̀']), ('Ú', ['U', '́']), ('Û', ['U', '̂']),
   ('Ü', ['U', '̈']), ('Ý', ['Y', '́']), ('à', ['a', '̀']),
   ('á', ['a', '́']), ('â', ['a', '̂']), ('ã', ['a', '̃']),
   ('ä', ['a', '̈']), ('å', ['a', '̊']), ('ç', ['c', '̧']),
   ('è', ['e', '̀']), ('é', ['e', '́']), ('ê', ['e', '̂']),
   ('ë', ['e', '̈']), ('ì', ['i', '̀']), ('í', ['i', '́']),
   ('î', ['i', '̂']), ('ï', ['i', '̈']), ('ñ', ['n', '̃']),
   ('ò', ['o', '̀']), ('ó', ['o', '́']), ('ô', ['o', '̂']),
   ('õ', ['o', '̃']), ('ö', ['o', '̈']), ('ù', ['u', '̀']),
   ('ú', ['u', '́']), ('û', ['u', '̂']), ('ü', ['u', '̈']),
   ('ý', ['y', '́']), ('ÿ', ['y', '̈'])]

/-- Canonical decomposition of one character (identity off the table). -/
def nfdChar (c : Char) : List Char :=
  match (nfdTable.find? (fun p => p.1 == c)).map Prod.snd with
  | some l => l
  | none => [c]

/-- The NFD pass of `normalize`: `unicodedata.normalize("NFD", s)`. -/
def nfdStr (s : List Char) : List Char := s.flatMap nfdChar

/-- The mark-stripping pass of `normalize`: `re.sub(r"[̀-ͯ]", "", s)`. -/
def stripMarks (s : List Char) : List Char := s.filter (fun c => !isCombining c)

/-- Python `str.strip()`: remove leading and trailing whitespace. -/
def pyStrip (s : List Char) : List Char :=
  ((s.dropWhile isPySpace).reverse.dropWhile isPySpace).reverse

/-- Python `str.split()` with no separator: split on whitespace runs,
dropping empty chunks. -/
def pySplit (s : List Char) : List (List Char) :=
  (s.splitOnP isPySpace).filter (fun w => !w.isEmpty)

/-- Python `sep.join(ws)`. -/
def pyJoin (sep : List Char) : List (List Char) → List Char
  | [] => []
  | [w] => w
  | w :: ws => w ++ sep ++ pyJoin sep ws

/-- The whitespace-collapsing pass of `normalize`:
`" ".join(s.strip().split())` (verification.py line 12). -/
def collapseWs (s : List Char) : List Char := pyJoin [' '] (pySplit (pyStrip s))

/-- The uppercasing pass of `normalize`: `s.upper()`, modelled on ASCII by
core `Char.toUpper` (see the module comment). -/
def upperStr (s : List Char) : List Char := s.map Char.toUpper

/-- Embeds `normalize` (verification.py lines 6-13): `None` becomes the empty
string, then NFD, strip combining marks, collapse whitespace, uppercase. -/
def normalize : Option (List Char) → List Char
  | none => []
  | some s => upperStr (collapseWs (stripMarks (nfdStr s)))

/-- Embeds `re.sub(r"\D", "", s)` (verification.py line 34 and app.py
line 297): keep only digits.  Python `\d` is the Unicode decimal-digit
class; the model restricts it to the ASCII digits `0-9`. -/
def onlyDigits (s : List Char) : List Char := s.filter Char.isDigit

/-- Python `x or ""` applied to an optional string: `None` becomes empty. -/
def optStr : Option (List Char) → List Char
  | none => []
  | some s => s

/-- UTF-16 code units of a list of code points, as produced by
`input_str.encode("utf-16le", errors="surrogatepass")` read 16 bits at a
time: code points below 0x10000 (including lone surrogates, which
`surrogatepass` passes through) give one unit; larger code points give a
surrogate pair. -/
def utf16Units (cps : List Nat) : List Nat :=
  cps.flatMap (fun cp =>
    if cp < 0x10000 then [cp]
    else [0xD800 + (cp - 0x10000) / 0x400, 0xDC00 + (cp - 0x10000) % 0x400])

/-- The little-endian byte string `input_str.encode("utf-16le",
errors="surrogatepass")` (verification.py line 21). -/
def utf16leBytes (cps : List Nat) : List Nat :=
  (utf16Units cps).flatMap (fun u => [u % 256, u / 256])

/-- One iteration of the hash loop (verification.py lines 24-26):
`h ^= cu` then `h = (h + ((h << 1) + (h << 4) + (h << 7) + (h << 8) +
(h << 24))) & 0xFFFFFFFF`. -/
def fnvMix (h cu : Nat) : Nat :=
  let x := h ^^^ cu
  (x + ((x <<< 1) + (x <<< 4) + (x <<< 7) + (x <<< 8) + (x <<< 24))) &&& 0xFFFFFFFF

/-- The byte-pair loop of `fnv1a32` (verification.py lines 22-26):
`for i in range(0, len(b), 2): cu = b[i] | (b[i + 1] << 8); ...`.
A read of `b[i + 1]` past the end of the byte string (which would raise
`IndexError` in Python) is modelled as `none`. -/
def fnvBytesLoop : List Nat → Nat → Option Nat
  | [], h => some h
  | [_], _ => none
  | b0 :: b1 :: rest, h => fnvBytesLoop rest (fnvMix h (b0 ||| (b1 <<< 8)))

/-- Embeds `fnv1a32` (verification.py lines 16-27) at the byte level,
including the possibility of an out-of-bounds read, and the final
`return h & 0xFFFFFFFF`. -/
def fnv1a32Bytes (b : List Nat) : Option Nat :=
  (fnvBytesLoop b 0x811C9DC5).map (fun h => h &&& 0xFFFFFFFF)

/-- The hash computed by `fnv1a32` on a list of code points, expressed as a
fold over the UTF-16 code units.  The lemma `fnvBytesLoop_flatMap` proves
that the byte-pair loop `fnv1a32Bytes` computes exactly this value on the
encoded byte string. -/
def fnv1a32 (cps : List Nat) : Nat :=
  ((utf16Units cps).foldl fnvMix 0x811C9DC5) &&& 0xFFFFFFFF

/-- Digit character for a value below 10. -/
def digitChar (d : Nat) : Char := Char.ofNat (48 + d)

/-- Auxiliary decimal rendering with explicit fuel (so that it reduces in
the kernel); `decDigits` always supplies enough fuel. -/
def decDigitsAux : Nat → Nat → List Char
  | 0, _ => []
  | fuel + 1, n =>
    if n < 10 then [digitChar n]
    else decDigitsAux fuel (n / 10) ++ [digitChar (n % 10)]

/-- Decimal digits of a natural number, most significant first. -/
def decDigits (n : Nat) : List Char := decDigitsAux (n + 1) n

/-- Zero padding on the left to width 6: together with `decDigits` this
embeds the format `f"{num:06d}"` (verification.py line 41). -/
def pad6 (ds : List Char) : List Char := List.replicate (6 - ds.length) '0' ++ ds

/-- Numeric value of a string of decimal digits (most significant first). -/
def digitsVal (ds : List Char) : Nat := ds.foldl (fun a c => 10 * a + (c.toNat - 48)) 0

/-- The separator `"␟"` (verification.py line 36). -/
def sepChar : Char := '␟'

/-- The string hashed by the generator (verification.py lines 31-37):
`sep.join([normalize(id), normalize(ciudad), re.sub(r"\D", "", str(nit or "")),
normalize(nombreEmpresa)])`. -/
def hashInput (id ciudad nit nombreEmpresa : Option (List Char)) : List Char :=
  pyJoin [sepChar]
    [normalize id, normalize ciudad, onlyDigits (optStr nit), normalize nombreEmpresa]

/-- Embeds `six_digit_code_from_fields` (verification.py lines 30-41). -/
def six_digit_code_from_fields (id ciudad nit nombreEmpresa : Option (List Char)) :
    List Char :=
  let h := fnv1a32 ((hashInput id ciudad nit nombreEmpresa).map Char.toNat)
  pad6 (decDigits (h % 1000000))

/-! ## Embedding of the submission pipeline (`src/app.py`) -/

/-- The metadata read from the addressing parameters (app.py lines 203-209);
each field is stored as a plain (possibly empty) string, and `POSTURL` has
already been percent-decoded and scheme-upgraded by lines 196-201. -/
structure Meta where
  id : List Char
  ciudad : List Char
  nit : List Char
  nombreEmpresa : List Char
  posturl : List Char
deriving DecidableEq

/-- One equipment row as collected by `render_equipment_rows` (app.py lines
113-123).  `cantidad` comes from `st.number_input`, which returns a float;
floats are modelled as rationals, and the defensive `is None` check of the
validation loop is kept by making the field optional. -/
structure EquipmentItem where
  nombre : List Char
  cantidad : Option ℚ
  unidad : List Char
  marca : List Char
  modelo : List Char
  serial : List Char
  observaciones : List Char
deriving DecidableEq

/-- One uploaded image: its `name` and `type` attributes and its bytes.
`type` may be absent (`getattr(f, "type", None)` in app.py line 170). -/
structure UploadedFile where
  name : List Char
  ftype : Option (List Char)
  content : List Nat
deriving DecidableEq

/-- The three possible values of the work-at-height selectbox
(app.py lines 261-265): the unset default and the two answers. -/
inductive AlturasChoice
  | seleccione
  | si
  | no
deriving DecidableEq

/-- The raw form state at the moment the submit button is pressed: every
value read inside the `if submitted:` block of app.py lines 308-366. -/
structure FormState where
  meta : Meta
  descripcion : List Char
  equipos : List EquipmentItem
  alturasChoice : AlturasChoice
  detallesAlturas : List Char
  observaciones : List Char
  actividades : List Char
  imgsAntes : List UploadedFile
  imgsDurante : List UploadedFile
  imgsDespues : List UploadedFile
  enteredCode : List Char
deriving DecidableEq

/-- Embeds `verification_code = six_digit_code_from_fields(...)` (app.py
lines 211-216). -/
def verification_code (m : Meta) : List Char :=
  six_digit_code_from_fields (some m.id) (some m.ciudad) (some m.nit)
    (some m.nombreEmpresa)

/-- Embeds `entered_digits = re.sub(r"\D", "", entered_code)` (app.py
line 297). -/
def entered_digits (fs : FormState) : List Char := onlyDigits fs.enteredCode

/-- Embeds `is_http_url` (app.py lines 57-60): false on the empty string,
otherwise a prefix test for the two schemes. -/
def is_http_url (url : List Char) : Bool :=
  if url.isEmpty then false
  else "http://".data.isPrefixOf url || "https://".data.isPrefixOf url

/-- The validation error messages of app.py lines 313-350, one constructor
per distinct message; `faltaMaterial idx` carries the 1-based row number
interpolated into `f"Falta información en el material #{idx}."`. -/
inductive VError
  | descripcionObligatoria
  | faltaMaterial (idx : Nat)
  | alturasSeleccion
  | observacionesObligatorias
  | actividadesObligatorias
  | faltaImagenAntes
  | faltaImagenDurante
  | faltaImagenDespues
  | codigoInvalido
  | posturlInvalida
deriving DecidableEq

/-- The failure condition of the equipment validation loop (app.py lines
319-324): blank name, missing or non-positive quantity, or blank unit. -/
def badEquip (e : EquipmentItem) : Bool :=
  (pyStrip e.nombre).isEmpty ||
  (match e.cantidad with
   | none => true
   | some q => decide (q ≤ 0)) ||
  (pyStrip e.unidad).isEmpty

/-- The equipment validation loop (app.py lines 318-325):
`for idx, eq in enumerate(equipos, start=1): if ...: errors.append(...)`. -/
def equipErrors : Nat → List EquipmentItem → List VError
  | _, [] => []
  | idx, e :: es =>
    (if badEquip e then [VError.faltaMaterial idx] else []) ++ equipErrors (idx + 1) es

/-- The full accumulated error list of app.py lines 313-350, in source
order; every check appends independently of the others. -/
def validationErrors (fs : FormState) : List VError :=
  (if (pyStrip fs.descripcion).isEmpty then [VError.descripcionObligatoria] else []) ++
  equipErrors 1 fs.equipos ++
  (if fs.alturasChoice = AlturasChoice.seleccione then [VError.alturasSeleccion] else []) ++
  (if (pyStrip fs.observaciones).isEmpty then [VError.observacionesObligatorias] else []) ++
  (if (pyStrip fs.actividades).isEmpty then [VError.actividadesObligatorias] else []) ++
  (if fs.imgsAntes.isEmpty then [VError.faltaImagenAntes] else []) ++
  (if fs.imgsDurante.isEmpty then [VError.faltaImagenDurante] else []) ++
  (if fs.imgsDespues.isEmpty then [VError.faltaImagenDespues] else []) ++
  (if entered_digits fs ≠ verification_code fs.meta then [VError.codigoInvalido] else []) ++
  (if !is_http_url fs.meta.posturl then [VError.posturlInvalida] else [])

/-- Fractional decimal digits of `r / d` by long division, with fuel (the
`cantidad` floats are dyadic, so their expansion is finite). -/
def fracDigits : Nat → Nat → Nat → List Char
  | 0, _, _ => []
  | fuel + 1, r, d =>
    if r = 0 then [] else digitChar (r * 10 / d) :: fracDigits fuel (r * 10 % d) d

/-- Python `str()` of the `cantidad` float, modelled on the rational it
denotes: optional sign, integer digits, a point, and the fractional digits
(`0` when integral, so `str(0.0)` is `"0.0"`). -/
def pyFloatStr (q : ℚ) : List Char :=
  (if q < 0 then ['-'] else []) ++ decDigits (q.num.natAbs / q.den) ++
    '.' :: (let fr := fracDigits 1200 (q.num.natAbs % q.den) q.den
            if fr.isEmpty then ['0'] else fr)

/-- Python `str()` of an equipment value that may be a missing quantity:
`str(None)` is `"None"`. -/
def pyStrOfCantidad : Option ℚ → List Char
  | none => "None".data
  | some q => pyFloatStr q

/-- The values of one equipment item in dict insertion order, each passed
through `str()`, as in `e.values()` at app.py line 359. -/
def itemValues (e : EquipmentItem) : List (List Char) :=
  [e.nombre, pyStrOfCantidad e.cantidad, e.unidad, e.marca, e.modelo,
   e.serial, e.observaciones]

/-- The filter condition `any(str(v).strip() for v in e.values())` of
app.py line 359. -/
def itemAnyNonBlank (e : EquipmentItem) : Bool :=
  (itemValues e).any (fun v => !(pyStrip v).isEmpty)

/-- The equipment list actually serialized (app.py line 359):
`[e for e in equipos if any(str(v).strip() for v in e.values())]`. -/
def filteredEquipos (es : List EquipmentItem) : List EquipmentItem :=
  es.filter itemAnyNonBlank

/-- The `trabajoEnAlturas` object of the payload (app.py lines 360-363). -/
structure TrabajoAlturas where
  requiere : Bool
  detalles : List Char
deriving DecidableEq

/-- The `metadata` object of the payload (app.py lines 138-144). -/
structure PayloadMetadata where
  id : List Char
  ciudad : List Char
  nit : List Char
  nombreEmpresa : List Char
  submittedAt : List Char
deriving DecidableEq

/-- The JSON document built by `make_payload` (app.py lines 128-150). -/
structure ReportPayload where
  metadata : PayloadMetadata
  descripcionServicio : List Char
  equiposMaterialesInstalados : List EquipmentItem
  trabajoEnAlturas : TrabajoAlturas
  observacionesGenerales : List Char
  actividadesPendientesONovedades : List Char
deriving DecidableEq

/-- Embeds `make_payload` (app.py lines 128-150); `meta.get(k) or ""` is the
identity on the plain strings `Meta` holds, and `submittedAt` is the
`now_iso()` timestamp passed in explicitly. -/
def make_payload (meta : Meta) (descripcion : List Char)
    (equipos : List EquipmentItem) (trabajoAlturas : TrabajoAlturas)
    (observaciones actividades : List Char) (now : List Char) : ReportPayload :=
  { metadata :=
      { id := meta.id, ciudad := meta.ciudad, nit := meta.nit,
        nombreEmpresa := meta.nombreEmpresa, submittedAt := now },
    descripcionServicio := descripcion,
    equiposMaterialesInstalados := equipos,
    trabajoEnAlturas := trabajoAlturas,
    observacionesGenerales := observaciones,
    actividadesPendientesONovedades := actividades }

/-- Content of one multipart part: the JSON document part carries the
payload itself (its byte serialization is not modelled), image parts carry
their bytes. -/
inductive PartContent
  | jsonDoc (payload : ReportPayload)
  | fileBytes (content : List Nat)
deriving DecidableEq

/-- One part of the multipart body built by `to_files_payload`. -/
structure Part where
  field : List Char
  filename : List Char
  content : PartContent
  mediaType : List Char
deriving DecidableEq

/-- Embeds `mimetypes.guess_type` for the extensions the uploader accepts
(app.py lines 283-291 restrict uploads to png, jpg, jpeg, webp); other
names give no guess. -/
def guessMime (fname : List Char) : Option (List Char) :=
  if ".png".data.isSuffixOf fname then some "image/png".data
  else if ".jpg".data.isSuffixOf fname then some "image/jpeg".data
  else if ".jpeg".data.isSuffixOf fname then some "image/jpeg".data
  else if ".webp".data.isSuffixOf fname then some "image/webp".data
  else none

/-- One image part (app.py lines 166-178): the declared type if non-empty,
else the extension guess, else the generic binary fallback. -/
def partOfFile (field : List Char) (f : UploadedFile) : Part :=
  let declared := optStr f.ftype
  let mt :=
    if declared.isEmpty then
      match guessMime f.name with
      | some g => g
      | none => "application/octet-stream".data
    else declared
  { field := field, filename := f.name,
    content := PartContent.fileBytes f.content, mediaType := mt }

/-- Embeds `to_files_payload` (app.py lines 153-184): the JSON part first,
then the images of the three categories in order. -/
def to_files_payload (payload : ReportPayload)
    (imgsAntes imgsDurante imgsDespues : List UploadedFile) : List Part :=
  { field := "payload".data, filename := "payload.json".data,
    content := PartContent.jsonDoc payload,
    mediaType := "application/json".data } ::
  (imgsAntes.map (partOfFile "imagenesAntes".data) ++
   imgsDurante.map (partOfFile "imagenesDurante".data) ++
   imgsDespues.map (partOfFile "imagenesDespues".data))

/-- Result of the `if submitted:` block: either the error report is shown
and nothing is sent, or one POST of the multipart body to the target. -/
inductive SubmitOutcome
  | blocked (errors : List VError)
  | sent (url : List Char) (payload : ReportPayload) (parts : List Part)
deriving DecidableEq

/-- The payload built on the success path (app.py lines 356-366). -/
def builtPayload (fs : FormState) (now : List Char) : ReportPayload :=
  make_payload fs.meta (pyStrip fs.descripcion) (filteredEquipos fs.equipos)
    { requiere := decide (fs.alturasChoice = AlturasChoice.si),
      detalles := pyStrip fs.detallesAlturas }
    (pyStrip fs.observaciones) (pyStrip fs.actividades) now

/-- Embeds the `if errors: ... else: ...` branch of app.py lines 352-377:
a non-empty error list blocks the submission, otherwise the payload and the
multipart parts are built and sent in one POST to the target address. -/
def processSubmission (fs : FormState) (now : List Char) : SubmitOutcome :=
  let errors := validationErrors fs
  if errors.isEmpty then
    SubmitOutcome.sent fs.meta.posturl (builtPayload fs now)
      (to_files_payload (builtPayload fs now) fs.imgsAntes fs.imgsDurante
        fs.imgsDespues)
  else SubmitOutcome.blocked errors

/-- Modelled from the spec: "The submission target address must be a
well-formed `http://` or `https://` URL."  Well-formedness here: one of the
two schemes, a nonempty remainder after the scheme, and only characters a
URI may contain (a conservative subset of RFC 3986: letters, digits and the
usual reserved and unreserved punctuation; in particular no spaces). -/
def isUriChar (c : Char) : Bool :=
  c.isAlphanum || "-._~:/?#[]@!$&()*+,;=%".data.contains c

/-- Modelled from the spec: a well-formed `http://` or `https://` URL; see
`isUriChar`. -/
def wellFormedHttpUrl (url : List Char) : Bool :=
  (("http://".data.isPrefixOf url && !(url.drop 7).isEmpty) ||
   ("https://".data.isPrefixOf url && !(url.drop 8).isEmpty)) &&
  url.all isUriChar

/-- Concrete metadata with empty identifying fields and a syntactically
valid target, used by witnesses. -/
def metaW : Meta := ⟨[], [], [], [], "https://h".data⟩

/-- A fully filled equipment row used by witnesses. -/
def goodItem : EquipmentItem := ⟨"A".data, some 1, "U".data, [], [], [], []⟩

/-- An equipment row with every field blank (the quantity at the widget
minimum `0.0`). -/
def blankItem : EquipmentItem := ⟨[], some 0, [], [], [], [], []⟩

/-- A single uploaded image used by witnesses. -/
def oneFile : UploadedFile := ⟨"a.png".data, none, []⟩

/-- A form state that passes every validation rule (the entered code is the
generated code for `metaW`). -/
def fsValid : FormState :=
  ⟨metaW, "x".data, [goodItem], AlturasChoice.si, [], "x".data, "x".data,
   [oneFile], [oneFile], [oneFile], "018996".data⟩

/-- A second form state sharing `fsValid`'s metadata but differing in other
fields (used by the C4 witness). -/
def fsOther : FormState :=
  { fsValid with
    descripcion := "y".data
    enteredCode := []
    imgsAntes := []
    alturasChoice := AlturasChoice.no }

/-- A form state identical to `fsValid` except that its single equipment
row is entirely blank. -/
def fsBlankItem : FormState := { fsValid with equipos := [blankItem] }

/-- A form state identical to `fsValid` except for an `ftp://` target. -/
def fsFtp : FormState :=
  { fsValid with meta := { metaW with posturl := "ftp://host".data } }

/-- A form state identical to `fsValid` except for a target that starts
with `https://` but is not a well-formed URL (it contains a space). -/
def fsBadUrl : FormState :=
  { fsValid with meta := { metaW with posturl := "https://a b".data } }

/-- The whitespace-delimited words of the collapsed first normalization
pass (a proof abbreviation). -/
def normWords (s : List Char) : List (List Char) :=
  pySplit (pyStrip (stripMarks (nfdStr s)))

/-- Modelled from the spec: the hash formula of section 4.1 read literally,
"h = h XOR unit, then h = (h + (h<<1) + (h<<4) + (h<<7) + (h<<8) + (h<<24))
mod 2^32, with initial h = 0x811C9DC5 and all shifts/additions computed
modulo 2^32 at every step", folded over the UTF-16 code units. -/
def fnv1a32FromSpec (cps : List Nat) : Nat :=
  (utf16Units cps).foldl
    (fun h u =>
      let x := h ^^^ u
      (x + ((x <<< 1) % 0x100000000 + (x <<< 4) % 0x100000000 +
            (x <<< 7) % 0x100000000 + (x <<< 8) % 0x100000000 +
            (x <<< 24) % 0x100000000) % 0x100000000) % 0x100000000)
    0x811C9DC5

/-! ## Helper lemmas: characters and decimal rendering -/

theorem toNat_ofNat_of_valid {n : Nat} (h : n.isValidChar) :
    (Char.ofNat n).toNat = n := by
  unfold Char.ofNat
  rw [dif_pos h]
  rfl

theorem digitChar_toNat {d : Nat} (h : d < 10) : (digitChar d).toNat = 48 + d := by
  have hv : (48 + d).isValidChar := Or.inl (by omega)
  exact toNat_ofNat_of_valid hv

theorem digitChar_isDigit {d : Nat} (h : d < 10) : (digitChar d).isDigit = true := by
  unfold digitChar
  interval_cases d <;> decide

theorem digitsVal_cons (c : Char) (ds : List Char) :
    digitsVal (c :: ds) = (c :: ds).foldl (fun a x => 10 * a + (x.toNat - 48)) 0 := rfl

theorem digitsVal_append_last (ds : List Char) (c : Char) :
    digitsVal (ds ++ [c]) = 10 * digitsVal ds + (c.toNat - 48) := by
  simp [digitsVal, List.foldl_append]

theorem decDigitsAux_spec :
    ∀ fuel n, n < fuel →
      digitsVal (decDigitsAux fuel n) = n ∧ decDigitsAux fuel n ≠ [] ∧
      ∀ c ∈ decDigitsAux fuel n, c.isDigit = true := by
  intro fuel
  induction fuel with
  | zero => intro n h; omega
  | succ fuel ih =>
    intro n h
    by_cases h10 : n < 10
    · refine ⟨?_, by simp [decDigitsAux, h10], ?_⟩
      · simp [decDigitsAux, h10, digitsVal, digitChar_toNat h10]
      · intro c hc
        simp [decDigitsAux, h10] at hc
        subst hc
        exact digitChar_isDigit h10
    · have hlt : n / 10 < fuel := by
        have := Nat.div_lt_self (by omega : 0 < n) (by omega : 1 < 10)
        omega
      obtain ⟨hval, hne, hdig⟩ := ih (n / 10) hlt
      have hmod : n % 10 < 10 := Nat.mod_lt _ (by omega)
      refine ⟨?_, by simp [decDigitsAux, h10], ?_⟩
      · rw [show decDigitsAux (fuel + 1) n =
            decDigitsAux fuel (n / 10) ++ [digitChar (n % 10)] by
            simp [decDigitsAux, h10]]
        rw [digitsVal_append_last, hval, digitChar_toNat hmod]
        omega
      · intro c hc
        rw [show decDigitsAux (fuel + 1) n =
            decDigitsAux fuel (n / 10) ++ [digitChar (n % 10)] by
            simp [decDigitsAux, h10]] at hc
        rcases List.mem_append.1 hc with hc | hc
        · exact hdig c hc
        · simp at hc
          subst hc
          exact digitChar_isDigit hmod

theorem decDigitsAux_length :
    ∀ fuel k n, n < fuel → n < 10 ^ k → 1 ≤ k →
      (decDigitsAux fuel n).length ≤ k := by
  intro fuel
  induction fuel with
  | zero => intro k n h; omega
  | succ fuel ih =>
    intro k n h hk h1
    by_cases h10 : n < 10
    · simp [decDigitsAux, h10]
      omega
    · have hk2 : 2 ≤ k := by
        by_contra hcon
        have : k = 1 := by omega
        subst this
        simp at hk
        omega
      have hlt : n / 10 < fuel := by
        have := Nat.div_lt_self (by omega : 0 < n) (by omega : 1 < 10)
        omega
      have hdiv : n / 10 < 10 ^ (k - 1) := by
        rw [Nat.div_lt_iff_lt_mul (by omega : 0 < 10)]
        calc n < 10 ^ k := hk
        _ = 10 ^ (k - 1) * 10 := by
            rw [← pow_succ]
            congr 1
            omega
      have := ih (k - 1) (n / 10) hlt hdiv (by omega)
      simp [decDigitsAux, h10]
      omega

theorem decDigits_spec (n : Nat) :
    digitsVal (decDigits n) = n ∧ decDigits n ≠ [] ∧
    ∀ c ∈ decDigits n, c.isDigit = true :=
  decDigitsAux_spec (n + 1) n (by omega)

theorem decDigits_length_le {n k : Nat} (h : n < 10 ^ k) (h1 : 1 ≤ k) :
    (decDigits n).length ≤ k :=
  decDigitsAux_length (n + 1) k n (by omega) h h1

theorem foldl_zeros (k : Nat) :
    List.foldl (fun a (c : Char) => 10 * a + (c.toNat - 48)) 0
      (List.replicate k '0') = 0 := by
  induction k with
  | zero => rfl
  | succ k ihk =>
    rw [List.replicate_succ, List.foldl_cons,
      show 10 * 0 + ('0'.toNat - 48) = 0 from by decide]
    exact ihk

theorem digitsVal_pad6 (ds : List Char) : digitsVal (pad6 ds) = digitsVal ds := by
  unfold pad6 digitsVal
  rw [List.foldl_append, foldl_zeros]

theorem pad6_length {ds : List Char} (h : ds.length ≤ 6) : (pad6 ds).length = 6 := by
  simp [pad6]
  omega

theorem pad6_digits {ds : List Char} (h : ∀ c ∈ ds, c.isDigit = true) :
    ∀ c ∈ pad6 ds, c.isDigit = true := by
  intro c hc
  rcases List.mem_append.1 hc with hc | hc
  · have := List.eq_of_mem_replicate hc
    subst this
    decide
  · exact h c hc

/-! ## Helper lemmas: the hash loop -/

theorem and_mask32 (y : Nat) : y &&& 0xFFFFFFFF = y % 0x100000000 := by
  have h := Nat.and_pow_two_sub_one_eq_mod y 32
  norm_num at h
  exact h

theorem fnvMix_lt (h u : Nat) : fnvMix h u < 0x100000000 := by
  unfold fnvMix
  rw [and_mask32]
  exact Nat.mod_lt _ (by norm_num)

theorem foldl_fnvMix_lt (us : List Nat) {h : Nat} (hh : h < 0x100000000) :
    us.foldl fnvMix h < 0x100000000 := by
  induction us generalizing h with
  | nil => exact hh
  | cons u us ih => exact ih (fnvMix_lt _ _)

theorem lor_mul_pow_two : ∀ (k a b : Nat), a < 2 ^ k → a ||| b * 2 ^ k = a + b * 2 ^ k := by
  intro k
  induction k with
  | zero =>
    intro a b h
    have : a = 0 := by omega
    subst this
    simp [Nat.zero_or]
  | succ k ih =>
    intro a b h
    have hp : (2 : Nat) ^ (k + 1) = 2 * 2 ^ k := by ring
    have hy2 : b * 2 ^ (k + 1) % 2 = 0 := by
      rw [hp, show b * (2 * 2 ^ k) = 2 * (b * 2 ^ k) by ring]
      simp [Nat.mul_mod_right]
    have hmod : (a ||| b * 2 ^ (k + 1)) % 2 = a % 2 := by
      have hiff := Nat.or_mod_two_eq_one (a := a) (b := b * 2 ^ (k + 1))
      rcases Nat.mod_two_eq_zero_or_one a with ha | ha
      · have : ¬ (a ||| b * 2 ^ (k + 1)) % 2 = 1 := by
          rw [hiff]
          omega
        omega
      · rw [ha, hiff.2 (Or.inl ha)]
    have hdiv : (a ||| b * 2 ^ (k + 1)) / 2 = a / 2 + b * 2 ^ k := by
      rw [Nat.or_div_two, show b * 2 ^ (k + 1) / 2 = b * 2 ^ k by
        rw [hp, show b * (2 * 2 ^ k) = b * 2 ^ k * 2 by ring]
        exact Nat.mul_div_cancel _ (by omega)]
      exact ih (a / 2) b (by omega)
    have hy : b * 2 ^ (k + 1) = 2 * (b * 2 ^ k) := by
      rw [pow_succ]
      ring
    have h1 := Nat.div_add_mod (a ||| b * 2 ^ (k + 1)) 2
    have h2 := Nat.div_add_mod a 2
    omega

theorem byte_recombine (u : Nat) :
    u % 256 ||| (u / 256) <<< 8 = u := by
  have h8 : (2 : Nat) ^ 8 = 256 := by norm_num
  have hlt : u % 256 < 2 ^ 8 := by
    rw [h8]
    exact Nat.mod_lt _ (by norm_num)
  have hkey := lor_mul_pow_two 8 (u % 256) (u / 256) hlt
  rw [h8] at hkey
  rw [Nat.shiftLeft_eq, h8, hkey]
  omega

theorem fnvBytesLoop_pairs :
    ∀ (us : List Nat) (h : Nat),
      fnvBytesLoop (us.flatMap (fun u => [u % 256, u / 256])) h =
        some (us.foldl (fun h u => fnvMix h (u % 256 ||| (u / 256) <<< 8)) h) := by
  intro us
  induction us with
  | nil => intro h; rfl
  | cons u us ih =>
    intro h
    simp only [List.flatMap_cons, List.cons_append, List.nil_append,
      List.foldl_cons, fnvBytesLoop]
    exact ih (fnvMix h (u % 256 ||| (u / 256) <<< 8))

theorem fnvMix_eq_specStep (h u : Nat) :
    fnvMix h u =
      (let x := h ^^^ u
       (x + ((x <<< 1) % 0x100000000 + (x <<< 4) % 0x100000000 +
             (x <<< 7) % 0x100000000 + (x <<< 8) % 0x100000000 +
             (x <<< 24) % 0x100000000) % 0x100000000) % 0x100000000) := by
  unfold fnvMix
  rw [and_mask32]
  simp only [Nat.shiftLeft_eq]
  norm_num
  omega

theorem fnvMix_eq_mulStep (h u : Nat) :
    fnvMix h u = ((h ^^^ u) * 16777619) % 0x100000000 := by
  unfold fnvMix
  rw [and_mask32]
  simp only [Nat.shiftLeft_eq]
  norm_num
  ring_nf

/-- The byte-pair loop of the source computes exactly the unit-level fold
`fnv1a32` on the encoded byte string. -/
theorem fnv1a32Bytes_eq (cps : List Nat) :
    fnv1a32Bytes (utf16leBytes cps) = some (fnv1a32 cps) := by
  unfold fnv1a32Bytes utf16leBytes fnv1a32
  rw [fnvBytesLoop_pairs]
  have hsame :
      (utf16Units cps).foldl
        (fun h u => fnvMix h (u % 256 ||| (u / 256) <<< 8)) 0x811C9DC5 =
      (utf16Units cps).foldl fnvMix 0x811C9DC5 :=
    List.foldl_ext _ _ _ (fun a u _ => by rw [byte_recombine u])
  rw [hsame, Option.map_some']

/-! ## Claims C1 to C4 and C10 -/

/-- C1: the hash used by the generator is FNV-1a 32-bit over the UTF-16
little-endian code units exactly as the spec formula states it (with the
wraparound after every step), surrogate halves processed literally; the
shift-sum mixing step is also the usual FNV multiplication by 16777619
modulo 2^32. -/
theorem C1_hash_is_fnv1a_utf16 (cps : List Nat) :
    fnv1a32Bytes (utf16leBytes cps) = some (fnv1a32FromSpec cps) ∧
    fnv1a32 cps = fnv1a32FromSpec cps ∧
    fnv1a32FromSpec cps =
      (utf16Units cps).foldl
        (fun h u => ((h ^^^ u) * 16777619) % 0x100000000) 0x811C9DC5 := by
  have hfold : (utf16Units cps).foldl fnvMix 0x811C9DC5 = fnv1a32FromSpec cps := by
    unfold fnv1a32FromSpec
    exact List.foldl_ext _ _ _ (fun a u _ => fnvMix_eq_specStep a u)
  have hmask : fnv1a32 cps = (utf16Units cps).foldl fnvMix 0x811C9DC5 := by
    unfold fnv1a32
    rw [and_mask32]
    exact Nat.mod_eq_of_lt (foldl_fnvMix_lt _ (by norm_num))
  refine ⟨?_, by rw [hmask, hfold], ?_⟩
  · rw [fnv1a32Bytes_eq, hmask, hfold]
  · rw [← hfold]
    exact List.foldl_ext _ _ _ (fun a u _ => fnvMix_eq_mulStep a u)

/-- C10: for every list of code points (lone surrogates and astral-plane
code points included) the UTF-16LE byte string has even length and the
byte-pair hash loop runs to completion, never reading past the end. -/
theorem C10_hash_total (cps : List Nat) :
    (utf16leBytes cps).length % 2 = 0 ∧
    (fnv1a32Bytes (utf16leBytes cps)).isSome = true := by
  constructor
  · unfold utf16leBytes
    generalize utf16Units cps = us
    induction us with
    | nil => rfl
    | cons u us ih =>
      simp only [List.flatMap_cons, List.cons_append, List.nil_append,
        List.length_cons]
      omega
  · unfold fnv1a32Bytes utf16leBytes
    rw [fnvBytesLoop_pairs]
    rfl

/-- C2: the string the generator hashes is the four normalized fields in
the fixed order id, ciudad, nit, nombreEmpresa with the single separator
U+241F between each pair; id, ciudad and nombreEmpresa go through
`normalize` (missing treated as empty), nit keeps only its digits. -/
theorem C2_hash_input_shape (id ciudad nit nombreEmpresa : Option (List Char)) :
    hashInput id ciudad nit nombreEmpresa =
      normalize id ++ [sepChar] ++ normalize ciudad ++ [sepChar] ++
      onlyDigits (optStr nit) ++ [sepChar] ++ normalize nombreEmpresa ∧
    normalize none = [] ∧ optStr none = [] := by
  refine ⟨?_, rfl, rfl⟩
  simp [hashInput, pyJoin]

/-- C3: the generator always returns the hash reduced modulo 1000000,
rendered as exactly 6 ASCII digit characters, zero-padded on the left. -/
theorem C3_code_format (id ciudad nit nombreEmpresa : Option (List Char)) :
    six_digit_code_from_fields id ciudad nit nombreEmpresa =
      pad6 (decDigits
        (fnv1a32 ((hashInput id ciudad nit nombreEmpresa).map Char.toNat) % 1000000)) ∧
    (six_digit_code_from_fields id ciudad nit nombreEmpresa).length = 6 ∧
    (∀ c ∈ six_digit_code_from_fields id ciudad nit nombreEmpresa,
       c.isDigit = true) ∧
    digitsVal (six_digit_code_from_fields id ciudad nit nombreEmpresa) =
      fnv1a32 ((hashInput id ciudad nit nombreEmpresa).map Char.toNat) % 1000000 := by
  set m := fnv1a32 ((hashInput id ciudad nit nombreEmpresa).map Char.toNat) % 1000000 with hm
  have hlt : m < 10 ^ 6 := by
    have : m < 1000000 := Nat.mod_lt _ (by norm_num)
    norm_num
    omega
  obtain ⟨hval, hne, hdig⟩ := decDigits_spec m
  have hlen : (decDigits m).length ≤ 6 := decDigits_length_le hlt (by norm_num)
  refine ⟨rfl, pad6_length hlen, pad6_digits hdig, ?_⟩
  show digitsVal (pad6 (decDigits m)) = m
  rw [digitsVal_pad6, hval]

/-- C4: the verification code is a pure function of the four metadata
fields only: two form states agreeing on id, ciudad, nit and nombreEmpresa
produce the same code, whatever every other field holds. -/
theorem C4_code_pure_function (fs1 fs2 : FormState)
    (h1 : fs1.meta.id = fs2.meta.id) (h2 : fs1.meta.ciudad = fs2.meta.ciudad)
    (h3 : fs1.meta.nit = fs2.meta.nit)
    (h4 : fs1.meta.nombreEmpresa = fs2.meta.nombreEmpresa) :
    verification_code fs1.meta = verification_code fs2.meta := by
  unfold verification_code
  rw [h1, h2, h3, h4]

/-- C4 witness: the theorem applied to two concrete states that differ in
several non-metadata fields. -/
theorem C4_code_pure_function_witness :
    (fsValid.meta.id = fsOther.meta.id ∧
     fsValid.meta.ciudad = fsOther.meta.ciudad ∧
     fsValid.meta.nit = fsOther.meta.nit ∧
     fsValid.meta.nombreEmpresa = fsOther.meta.nombreEmpresa ∧
     fsValid ≠ fsOther) ∧
    verification_code fsValid.meta = verification_code fsOther.meta :=
  ⟨⟨rfl, rfl, rfl, rfl, by decide⟩,
   C4_code_pure_function fsValid fsOther rfl rfl rfl rfl⟩

/-! ## Helper lemmas: the validation error list -/

theorem mem_ite_singleton {c : Prop} [Decidable c] {x y : VError} :
    (x ∈ if c then [y] else []) ↔ (c ∧ x = y) := by
  by_cases h : c <;> simp [h]

theorem equipErrors_all_falta :
    ∀ (start : Nat) (es : List EquipmentItem) (x : VError),
      x ∈ equipErrors start es → ∃ k, x = VError.faltaMaterial k := by
  intro start es
  induction es generalizing start with
  | nil => intro x hx; simp [equipErrors] at hx
  | cons e es ih =>
    intro x hx
    simp only [equipErrors, List.mem_append] at hx
    rcases hx with hx | hx
    · by_cases hb : badEquip e
      · simp [hb] at hx
        exact ⟨start, hx⟩
      · simp [hb] at hx
    · exact ih (start + 1) x hx

theorem mem_equipErrors_iff :
    ∀ (start : Nat) (es : List EquipmentItem) (k : Nat),
      (VError.faltaMaterial k ∈ equipErrors start es ↔
        ∃ i e, es.get? i = some e ∧ k = start + i ∧ badEquip e = true) := by
  intro start es
  induction es generalizing start with
  | nil => intro k; simp [equipErrors]
  | cons e es ih =>
    intro k
    simp only [equipErrors, List.mem_append]
    constructor
    · rintro (hx | hx)
      · by_cases hb : badEquip e
        · simp [hb] at hx
          exact ⟨0, e, by simp, by omega, hb⟩
        · simp [hb] at hx
      · obtain ⟨i, e2, hget, hk, hbad⟩ := (ih (start + 1) k).1 hx
        exact ⟨i + 1, e2, by simpa using hget, by omega, hbad⟩
    · rintro ⟨i, e2, hget, hk, hbad⟩
      cases i with
      | zero =>
        simp at hget
        subst hget
        left
        simp [hbad]
        omega
      | succ i =>
        right
        exact (ih (start + 1) k).2 ⟨i, e2, by simpa using hget, by omega, hbad⟩

theorem not_mem_equipErrors {x : VError} (hx : ∀ k, x ≠ VError.faltaMaterial k)
    (start : Nat) (es : List EquipmentItem) : x ∉ equipErrors start es := by
  intro hmem
  obtain ⟨k, hk⟩ := equipErrors_all_falta start es x hmem
  exact hx k hk

/-- Full characterization of the accumulated error list: each message is
present exactly when its rule fails, independently of every other rule. -/
theorem validationErrors_spec (fs : FormState) :
    (VError.descripcionObligatoria ∈ validationErrors fs ↔
       (pyStrip fs.descripcion).isEmpty = true) ∧
    (∀ k, VError.faltaMaterial k ∈ validationErrors fs ↔
       ∃ i e, fs.equipos.get? i = some e ∧ k = 1 + i ∧ badEquip e = true) ∧
    (VError.alturasSeleccion ∈ validationErrors fs ↔
       fs.alturasChoice = AlturasChoice.seleccione) ∧
    (VError.observacionesObligatorias ∈ validationErrors fs ↔
       (pyStrip fs.observaciones).isEmpty = true) ∧
    (VError.actividadesObligatorias ∈ validationErrors fs ↔
       (pyStrip fs.actividades).isEmpty = true) ∧
    (VError.faltaImagenAntes ∈ validationErrors fs ↔ fs.imgsAntes.isEmpty = true) ∧
    (VError.faltaImagenDurante ∈ validationErrors fs ↔ fs.imgsDurante.isEmpty = true) ∧
    (VError.faltaImagenDespues ∈ validationErrors fs ↔ fs.imgsDespues.isEmpty = true) ∧
    (VError.codigoInvalido ∈ validationErrors fs ↔
       entered_digits fs ≠ verification_code fs.meta) ∧
    (VError.posturlInvalida ∈ validationErrors fs ↔
       is_http_url fs.meta.posturl = false) := by
  have hdesc := not_mem_equipErrors
    (x := VError.descripcionObligatoria) (by intro k h; cases h) 1 fs.equipos
  have halt := not_mem_equipErrors
    (x := VError.alturasSeleccion) (by intro k h; cases h) 1 fs.equipos
  have hobs := not_mem_equipErrors
    (x := VError.observacionesObligatorias) (by intro k h; cases h) 1 fs.equipos
  have hact := not_mem_equipErrors
    (x := VError.actividadesObligatorias) (by intro k h; cases h) 1 fs.equipos
  have hant := not_mem_equipErrors
    (x := VError.faltaImagenAntes) (by intro k h; cases h) 1 fs.equipos
  have hdur := not_mem_equipErrors
    (x := VError.faltaImagenDurante) (by intro k h; cases h) 1 fs.equipos
  have hdes := not_mem_equipErrors
    (x := VError.faltaImagenDespues) (by intro k h; cases h) 1 fs.equipos
  have hcod := not_mem_equipErrors
    (x := VError.codigoInvalido) (by intro k h; cases h) 1 fs.equipos
  have hurl := not_mem_equipErrors
    (x := VError.posturlInvalida) (by intro k h; cases h) 1 fs.equipos
  refine ⟨?_, ?_, ?_, ?_, ?_, ?_, ?_, ?_, ?_, ?_⟩
  · simp [validationErrors, List.mem_append, mem_ite_singleton, hdesc]
  · intro k
    rw [show (∃ i e, fs.equipos.get? i = some e ∧ k = 1 + i ∧ badEquip e = true) ↔
        VError.faltaMaterial k ∈ equipErrors 1 fs.equipos from
      (mem_equipErrors_iff 1 fs.equipos k).symm]
    simp [validationErrors, List.mem_append, mem_ite_singleton]
  · simp [validationErrors, List.mem_append, mem_ite_singleton, halt]
  · simp [validationErrors, List.mem_append, mem_ite_singleton, hobs]
  · simp [validationErrors, List.mem_append, mem_ite_singleton, hact]
  · simp [validationErrors, List.mem_append, mem_ite_singleton, hant]
  · simp [validationErrors, List.mem_append, mem_ite_singleton, hdur]
  · simp [validationErrors, List.mem_append, mem_ite_singleton, hdes]
  · simp [validationErrors, List.mem_append, mem_ite_singleton, hcod]
  · simp [validationErrors, List.mem_append, mem_ite_singleton, hurl]

/-! ## Helper lemmas: stringified equipment values are never blank -/

theorem isDigit_toNat {c : Char} (h : c.isDigit = true) :
    48 ≤ c.toNat ∧ c.toNat ≤ 57 := by
  unfold Char.isDigit at h
  rw [Bool.and_eq_true] at h
  obtain ⟨h1, h2⟩ := h
  rw [decide_eq_true_eq] at h1 h2
  exact ⟨h1, h2⟩

theorem isPySpace_eq_false_of_digit {c : Char} (h : c.isDigit = true) :
    isPySpace c = false := by
  obtain ⟨h1, h2⟩ := isDigit_toNat h
  simp [isPySpace, pyWhitespaceCodes]
  omega

theorem pyStrip_eq_self {s : List Char} (h : ∀ c ∈ s, isPySpace c = false) :
    pyStrip s = s := by
  unfold pyStrip
  have h1 : s.dropWhile isPySpace = s := by
    cases s with
    | nil => rfl
    | cons c t =>
      rw [List.dropWhile_cons, h c (List.mem_cons_self c t)]
      simp
  rw [h1]
  have h2 : s.reverse.dropWhile isPySpace = s.reverse := by
    cases hrev : s.reverse with
    | nil => rfl
    | cons c t =>
      have hc : c ∈ s := by
        rw [← List.mem_reverse, hrev]
        exact List.mem_cons_self c t
      rw [List.dropWhile_cons, h c hc]
      simp
  rw [h2, List.reverse_reverse]

theorem fracDigits_digits :
    ∀ (fuel r d : Nat), 0 < d → r < d →
      ∀ c ∈ fracDigits fuel r d, c.isDigit = true := by
  intro fuel
  induction fuel with
  | zero => intro r d _ _ c hc; simp [fracDigits] at hc
  | succ fuel ih =>
    intro r d hd hr c hc
    by_cases hr0 : r = 0
    · simp [fracDigits, hr0] at hc
    · simp only [fracDigits, if_neg hr0, List.mem_cons] at hc
      rcases hc with hc | hc
      · subst hc
        apply digitChar_isDigit
        rw [Nat.div_lt_iff_lt_mul hd]
        omega
      · exact ih (r * 10 % d) d hd (Nat.mod_lt _ hd) c hc

theorem pyFloatStr_spec (q : ℚ) :
    pyFloatStr q ≠ [] ∧ ∀ c ∈ pyFloatStr q, isPySpace c = false := by
  constructor
  · unfold pyFloatStr
    simp
  · intro c hc
    unfold pyFloatStr at hc
    simp only [List.mem_append, List.mem_cons] at hc
    rcases hc with (hsign | hdec) | hdot | hfr
    · by_cases hq : q < 0
      · simp [hq] at hsign
        subst hsign
        decide
      · simp [hq] at hsign
    · obtain ⟨-, -, hdig⟩ := decDigits_spec (q.num.natAbs / q.den)
      exact isPySpace_eq_false_of_digit (hdig c hdec)
    · subst hdot
      decide
    · by_cases hemp : (fracDigits 1200 (q.num.natAbs % q.den) q.den).isEmpty
      · simp only [hemp, if_pos, List.mem_singleton] at hfr
        subst hfr
        decide
      · simp only [hemp, if_neg, Bool.false_eq_true, not_false_eq_true,
          List.mem_singleton] at hfr
        have hdig := fracDigits_digits 1200 (q.num.natAbs % q.den) q.den
          q.den_pos (Nat.mod_lt _ q.den_pos) c hfr
        exact isPySpace_eq_false_of_digit hdig

theorem pyStrOfCantidad_nonblank (c : Option ℚ) :
    (pyStrip (pyStrOfCantidad c)).isEmpty = false := by
  cases c with
  | none => decide
  | some q =>
    obtain ⟨hne, hns⟩ := pyFloatStr_spec q
    show (pyStrip (pyFloatStr q)).isEmpty = false
    rw [pyStrip_eq_self hns]
    cases hfl : pyFloatStr q with
    | nil => exact absurd hfl hne
    | cons a l => rfl

theorem itemAnyNonBlank_true (e : EquipmentItem) : itemAnyNonBlank e = true := by
  unfold itemAnyNonBlank itemValues
  rw [List.any_eq_true]
  refine ⟨pyStrOfCantidad e.cantidad, by simp, ?_⟩
  rw [pyStrOfCantidad_nonblank]
  rfl

theorem filteredEquipos_eq_self (es : List EquipmentItem) :
    filteredEquipos es = es :=
  List.filter_eq_self.mpr (fun e _ => itemAnyNonBlank_true e)

/-! ## Claims C5 to C8 -/

/-- C5 counterexample: an equipment item with every field blank is flagged
by the validation loop (the submission is blocked with the row error), and
the serialization filter keeps it rather than excluding it, because the
stringified quantity `"0.0"` is never blank. -/
theorem C5_blank_item_counterexample :
    VError.faltaMaterial 1 ∈ validationErrors fsBlankItem ∧
    filteredEquipos [blankItem] = [blankItem] ∧
    processSubmission fsBlankItem [] =
      SubmitOutcome.blocked [VError.faltaMaterial 1] ∧
    blankItem.nombre = [] ∧ blankItem.cantidad = some 0 ∧
    blankItem.unidad = [] ∧ blankItem.marca = [] ∧ blankItem.modelo = [] ∧
    blankItem.serial = [] ∧ blankItem.observaciones = [] := by decide

/-- C5 amended: no equipment item is ever excluded by the serialization
filter (the stringified quantity is never blank, so every item passes it),
and an item whose name, quantity or unit is blank -- an all-blank item in
particular -- is flagged by the validation loop like any other incomplete
row; items that pass validation are included verbatim. -/
theorem C5_blank_item_amended :
    (∀ e : EquipmentItem, itemAnyNonBlank e = true) ∧
    (∀ es : List EquipmentItem, filteredEquipos es = es) ∧
    (∀ (fs : FormState) (i : Nat) (e : EquipmentItem),
       fs.equipos.get? i = some e → badEquip e = true →
       VError.faltaMaterial (1 + i) ∈ validationErrors fs) :=
  ⟨itemAnyNonBlank_true, filteredEquipos_eq_self,
   fun fs i e hget hbad =>
     ((validationErrors_spec fs).2.1 (1 + i)).2 ⟨i, e, hget, rfl, hbad⟩⟩

/-- C5 witness: the amended claim applied to the concrete blank row. -/
theorem C5_blank_item_amended_witness :
    fsBlankItem.equipos.get? 0 = some blankItem ∧ badEquip blankItem = true ∧
    VError.faltaMaterial (1 + 0) ∈ validationErrors fsBlankItem :=
  ⟨rfl, by decide,
   C5_blank_item_amended.2.2 fsBlankItem 0 blankItem rfl (by decide)⟩

/-- C6: the submit handler either sends exactly one POST with the complete
payload and parts (when the error list is empty), or blocks with the
non-empty accumulated error list and sends nothing; and the accumulated
list contains each rule's message exactly when that rule fails, so no
failure hides another. -/
theorem C6_all_or_nothing (fs : FormState) (now : List Char) :
    (validationErrors fs = [] →
       processSubmission fs now =
         SubmitOutcome.sent fs.meta.posturl (builtPayload fs now)
           (to_files_payload (builtPayload fs now) fs.imgsAntes fs.imgsDurante
             fs.imgsDespues)) ∧
    (validationErrors fs ≠ [] →
       processSubmission fs now = SubmitOutcome.blocked (validationErrors fs)) ∧
    ((VError.descripcionObligatoria ∈ validationErrors fs ↔
        (pyStrip fs.descripcion).isEmpty = true) ∧
     (∀ k, VError.faltaMaterial k ∈ validationErrors fs ↔
        ∃ i e, fs.equipos.get? i = some e ∧ k = 1 + i ∧ badEquip e = true) ∧
     (VError.alturasSeleccion ∈ validationErrors fs ↔
        fs.alturasChoice = AlturasChoice.seleccione) ∧
     (VError.observacionesObligatorias ∈ validationErrors fs ↔
        (pyStrip fs.observaciones).isEmpty = true) ∧
     (VError.actividadesObligatorias ∈ validationErrors fs ↔
        (pyStrip fs.actividades).isEmpty = true) ∧
     (VError.faltaImagenAntes ∈ validationErrors fs ↔ fs.imgsAntes.isEmpty = true) ∧
     (VError.faltaImagenDurante ∈ validationErrors fs ↔ fs.imgsDurante.isEmpty = true) ∧
     (VError.faltaImagenDespues ∈ validationErrors fs ↔ fs.imgsDespues.isEmpty = true) ∧
     (VError.codigoInvalido ∈ validationErrors fs ↔
        entered_digits fs ≠ verification_code fs.meta) ∧
     (VError.posturlInvalida ∈ validationErrors fs ↔
        is_http_url fs.meta.posturl = false)) := by
  refine ⟨?_, ?_, validationErrors_spec fs⟩
  · intro h
    unfold processSubmission
    rw [h]
    rfl
  · intro h
    unfold processSubmission
    cases hve : validationErrors fs with
    | nil => exact absurd hve h
    | cons a l => simp

/-- C6 witness: the success branch of the theorem at a concrete fully valid
form state. -/
theorem C6_all_or_nothing_witness :
    validationErrors fsValid = [] ∧
    processSubmission fsValid [] =
      SubmitOutcome.sent fsValid.meta.posturl (builtPayload fsValid [])
        (to_files_payload (builtPayload fsValid []) fsValid.imgsAntes
          fsValid.imgsDurante fsValid.imgsDespues) :=
  ⟨by decide, (C6_all_or_nothing fsValid []).1 (by decide)⟩

/-- C7: the code-mismatch validation error is present exactly when the
digit-stripped entered code differs from the code generated from the
current metadata. -/
theorem C7_code_check (fs : FormState) :
    VError.codigoInvalido ∈ validationErrors fs ↔
      onlyDigits fs.enteredCode ≠ verification_code fs.meta :=
  (validationErrors_spec fs).2.2.2.2.2.2.2.2.1

theorem is_http_url_iff (u : List Char) :
    is_http_url u = true ↔
      ("http://".data.isPrefixOf u = true ∨ "https://".data.isPrefixOf u = true) := by
  unfold is_http_url
  by_cases he : u.isEmpty
  · rw [List.isEmpty_iff] at he
    subst he
    decide
  · simp [he, Bool.or_eq_true]

/-- C8 counterexample: a target that is not a well-formed URL (a space
inside) passes the whole validation, because the code only tests the
scheme prefix; so well-formedness is not necessary to pass. -/
theorem C8_url_check_counterexample :
    validationErrors fsBadUrl = [] ∧
    wellFormedHttpUrl fsBadUrl.meta.posturl = false ∧
    fsBadUrl.meta.posturl = "https://a b".data := by decide

/-- C8 amended: the target passes the URL validation exactly when it starts
with `http://` or `https://` (a prefix test, not full well-formedness);
in particular `"ftp://host"` and the empty string are always rejected,
whatever the rest of the form holds. -/
theorem C8_url_check_amended (fs : FormState) :
    (VError.posturlInvalida ∈ validationErrors fs ↔
       is_http_url fs.meta.posturl = false) ∧
    (is_http_url fs.meta.posturl = true ↔
       ("http://".data.isPrefixOf fs.meta.posturl = true ∨
        "https://".data.isPrefixOf fs.meta.posturl = true)) ∧
    (fs.meta.posturl = "ftp://host".data →
       VError.posturlInvalida ∈ validationErrors fs) ∧
    (fs.meta.posturl = [] → VError.posturlInvalida ∈ validationErrors fs) := by
  have hmem := (validationErrors_spec fs).2.2.2.2.2.2.2.2.2
  refine ⟨hmem, is_http_url_iff fs.meta.posturl, ?_, ?_⟩
  · intro h
    rw [hmem, h]
    decide
  · intro h
    rw [hmem, h]
    decide

/-- C8 witness: the amended claim applied to a concrete state whose target
is `"ftp://host"`, rejected although everything else is valid. -/
theorem C8_url_check_amended_witness :
    fsFtp.meta.posturl = "ftp://host".data ∧
    VError.posturlInvalida ∈ validationErrors fsFtp :=
  ⟨rfl, (C8_url_check_amended fsFtp).2.2.1 rfl⟩

/-! ## Helper lemmas: whitespace splitting and joining (for idempotence) -/

theorem modifyHead_append {f : List Char → List Char} (l : List (List Char))
    (hl : l ≠ []) (l2 : List (List Char)) :
    List.modifyHead f (l ++ l2) = List.modifyHead f l ++ l2 := by
  cases l with
  | nil => exact absurd rfl hl
  | cons a l => simp

theorem splitOnP_group_no_sep :
    ∀ (l g : List Char), g ∈ l.splitOnP isPySpace → ∀ c ∈ g, isPySpace c = false := by
  intro l
  induction l with
  | nil =>
    intro g hg c hc
    rw [List.splitOnP_nil] at hg
    simp at hg
    subst hg
    simp at hc
  | cons x xs ih =>
    intro g hg c hc
    rw [List.splitOnP_cons] at hg
    by_cases hx : isPySpace x = true
    · rw [if_pos hx] at hg
      rcases List.mem_cons.1 hg with hg | hg
      · subst hg
        simp at hc
      · exact ih g hg c hc
    · rw [if_neg hx] at hg
      obtain ⟨g0, gs, hsp⟩ := List.exists_cons_of_ne_nil (List.splitOnP_ne_nil _ xs)
      rw [hsp, List.modifyHead_cons] at hg
      have hxf : isPySpace x = false := by
        simp at hx
        exact hx
      rcases List.mem_cons.1 hg with hg | hg
      · subst hg
        rcases List.mem_cons.1 hc with hc | hc
        · subst hc
          exact hxf
        · exact ih g0 (by rw [hsp]; exact List.mem_cons_self _ _) c hc
      · exact ih g (by rw [hsp]; exact List.mem_cons_of_mem _ hg) c hc

theorem splitOnP_group_subset :
    ∀ (l g : List Char), g ∈ l.splitOnP isPySpace → ∀ c ∈ g, c ∈ l := by
  intro l
  induction l with
  | nil =>
    intro g hg c hc
    rw [List.splitOnP_nil] at hg
    simp at hg
    subst hg
    simp at hc
  | cons x xs ih =>
    intro g hg c hc
    rw [List.splitOnP_cons] at hg
    by_cases hx : isPySpace x = true
    · rw [if_pos hx] at hg
      rcases List.mem_cons.1 hg with hg | hg
      · subst hg
        simp at hc
      · exact List.mem_cons_of_mem _ (ih g hg c hc)
    · rw [if_neg hx] at hg
      obtain ⟨g0, gs, hsp⟩ := List.exists_cons_of_ne_nil (List.splitOnP_ne_nil _ xs)
      rw [hsp, List.modifyHead_cons] at hg
      rcases List.mem_cons.1 hg with hg | hg
      · subst hg
        rcases List.mem_cons.1 hc with hc | hc
        · subst hc
          exact List.mem_cons_self _ _
        · exact List.mem_cons_of_mem _
            (ih g0 (by rw [hsp]; exact List.mem_cons_self _ _) c hc)
      · exact List.mem_cons_of_mem _
          (ih g (by rw [hsp]; exact List.mem_cons_of_mem _ hg) c hc)

theorem splitOnP_append_sep :
    ∀ (xs : List Char) {sp : Char}, isPySpace sp = true →
      (xs ++ [sp]).splitOnP isPySpace = xs.splitOnP isPySpace ++ [[]] := by
  intro xs
  induction xs with
  | nil =>
    intro sp hsp
    simp only [List.nil_append, List.splitOnP_cons, hsp, if_pos, List.splitOnP_nil]
    rfl
  | cons x xs ih =>
    intro sp hsp
    simp only [List.cons_append, List.splitOnP_cons]
    by_cases hx : isPySpace x = true
    · rw [if_pos hx, if_pos hx, ih hsp]
      rfl
    · rw [if_neg hx, if_neg hx, ih hsp,
        modifyHead_append _ (List.splitOnP_ne_nil _ xs)]

theorem pySplit_append_spaces :
    ∀ (t xs : List Char), (∀ c ∈ t, isPySpace c = true) →
      pySplit (xs ++ t) = pySplit xs := by
  intro t
  induction t with
  | nil =>
    intro xs _
    rw [List.append_nil]
  | cons sp t ih =>
    intro xs hsp
    have hx : xs ++ sp :: t = (xs ++ [sp]) ++ t := by simp
    rw [hx, ih (xs ++ [sp]) (fun c hc => hsp c (List.mem_cons_of_mem _ hc))]
    unfold pySplit
    rw [splitOnP_append_sep xs (hsp sp (List.mem_cons_self _ _)), List.filter_append]
    simp

theorem pySplit_spaces_append :
    ∀ (t xs : List Char), (∀ c ∈ t, isPySpace c = true) →
      pySplit (t ++ xs) = pySplit xs := by
  intro t
  induction t with
  | nil =>
    intro xs _
    rfl
  | cons sp t ih =>
    intro xs hsp
    show pySplit (sp :: (t ++ xs)) = pySplit xs
    unfold pySplit
    rw [List.splitOnP_cons, if_pos (hsp sp (List.mem_cons_self _ _))]
    simp only [List.filter_cons]
    rw [show ((([] : List Char)).isEmpty = true) from rfl]
    show pySplit (t ++ xs) = pySplit xs
    exact ih xs (fun c hc => hsp c (List.mem_cons_of_mem _ hc))

theorem pySplit_pyStrip (s : List Char) : pySplit (pyStrip s) = pySplit s := by
  unfold pyStrip
  set u := s.dropWhile isPySpace with hu
  have h1 : pySplit s = pySplit u := by
    conv_lhs => rw [← List.takeWhile_append_dropWhile isPySpace s]
    exact pySplit_spaces_append _ _ (fun c hc => List.mem_takeWhile_imp hc)
  have h2 : u = (u.reverse.dropWhile isPySpace).reverse ++
      (u.reverse.takeWhile isPySpace).reverse := by
    conv_lhs => rw [← List.reverse_reverse u,
      ← List.takeWhile_append_dropWhile isPySpace u.reverse]
    rw [List.reverse_append]
  have h3 : pySplit u = pySplit (u.reverse.dropWhile isPySpace).reverse := by
    conv_lhs => rw [h2]
    exact pySplit_append_spaces _ _
      (fun c hc => List.mem_takeWhile_imp (List.mem_reverse.1 hc))
  rw [h1, h3]

theorem pySplit_pyJoin :
    ∀ (ws : List (List Char)),
      (∀ w ∈ ws, w ≠ [] ∧ ∀ c ∈ w, isPySpace c = false) →
      pySplit (pyJoin [' '] ws) = ws := by
  intro ws
  induction ws with
  | nil => intro _; rfl
  | cons w ws ih =>
    intro h
    obtain ⟨hw, hwc⟩ := h w (List.mem_cons_self _ _)
    cases ws with
    | nil =>
      show pySplit w = [w]
      unfold pySplit
      rw [List.splitOnP_eq_single _ _ (fun c hc => by rw [hwc c hc]; simp)]
      simp [List.isEmpty_iff, hw]
    | cons w2 ws2 =>
      have hjoin : pyJoin [' '] (w :: w2 :: ws2) =
          w ++ ' ' :: pyJoin [' '] (w2 :: ws2) := by
        show w ++ [' '] ++ pyJoin [' '] (w2 :: ws2) = _
        simp
      rw [hjoin]
      unfold pySplit
      rw [List.splitOnP_first _ _ (fun c hc => by rw [hwc c hc]; simp) ' '
        (by decide) _]
      rw [List.filter_cons]
      rw [show (!w.isEmpty) = true from by
        cases w with
        | nil => exact absurd rfl hw
        | cons a l => rfl]
      show w :: pySplit (pyJoin [' '] (w2 :: ws2)) = w :: w2 :: ws2
      rw [ih (fun x hx => h x (List.mem_cons_of_mem _ hx))]

theorem pySplit_words (s : List Char) :
    ∀ w ∈ pySplit s, w ≠ [] ∧ ∀ c ∈ w, isPySpace c = false := by
  intro w hw
  unfold pySplit at hw
  rw [List.mem_filter] at hw
  obtain ⟨hmem, hne⟩ := hw
  constructor
  · intro hnil
    subst hnil
    simp at hne
  · exact splitOnP_group_no_sep s w hmem

theorem mem_pyJoin {c : Char} {sep : List Char} :
    ∀ (ws : List (List Char)), c ∈ pyJoin sep ws →
      (∃ w ∈ ws, c ∈ w) ∨ c ∈ sep := by
  intro ws
  induction ws with
  | nil => intro h; simp [pyJoin] at h
  | cons w ws ih =>
    intro h
    cases ws with
    | nil => exact Or.inl ⟨w, List.mem_cons_self _ _, h⟩
    | cons w2 ws2 =>
      rw [show pyJoin sep (w :: w2 :: ws2) = w ++ sep ++ pyJoin sep (w2 :: ws2)
        from rfl] at h
      rcases List.mem_append.1 h with h | h
      · rcases List.mem_append.1 h with h | h
        · exact Or.inl ⟨w, List.mem_cons_self _ _, h⟩
        · exact Or.inr h
      · rcases ih h with ⟨w3, hw3, hc⟩ | h
        · exact Or.inl ⟨w3, List.mem_cons_of_mem _ hw3, hc⟩
        · exact Or.inr h

theorem upperStr_pyJoin :
    ∀ (ws : List (List Char)),
      upperStr (pyJoin [' '] ws) = pyJoin [' '] (ws.map upperStr) := by
  intro ws
  induction ws with
  | nil => rfl
  | cons w ws ih =>
    cases ws with
    | nil => rfl
    | cons w2 ws2 =>
      show upperStr (w ++ [' '] ++ pyJoin [' '] (w2 :: ws2)) = _
      unfold upperStr
      rw [List.map_append, List.map_append]
      show _ ++ [' '] ++ (pyJoin [' '] (w2 :: ws2)).map Char.toUpper = _
      rw [show (pyJoin [' '] (w2 :: ws2)).map Char.toUpper =
        upperStr (pyJoin [' '] (w2 :: ws2)) from rfl, ih]
      rfl

/-! ## Helper lemmas: character classes under uppercasing (for idempotence) -/

theorem toUpper_toNat_of_lower {c : Char} (h : 97 ≤ c.toNat ∧ c.toNat ≤ 122) :
    (Char.toUpper c).toNat = c.toNat - 32 := by
  unfold Char.toUpper
  rw [if_pos ⟨h.1, h.2⟩]
  exact toNat_ofNat_of_valid (Or.inl (by omega))

theorem toUpper_eq_self_of_not_lower {c : Char}
    (h : ¬(97 ≤ c.toNat ∧ c.toNat ≤ 122)) : Char.toUpper c = c := by
  unfold Char.toUpper
  rw [if_neg (fun hc => h ⟨hc.1, hc.2⟩)]

theorem toUpper_idem (c : Char) :
    Char.toUpper (Char.toUpper c) = Char.toUpper c := by
  by_cases h : 97 ≤ c.toNat ∧ c.toNat ≤ 122
  · have ht := toUpper_toNat_of_lower h
    exact toUpper_eq_self_of_not_lower (by omega)
  · rw [toUpper_eq_self_of_not_lower h, toUpper_eq_self_of_not_lower h]

theorem isPySpace_eq_false_of_range {c : Char}
    (h : 33 ≤ c.toNat ∧ c.toNat ≤ 122) : isPySpace c = false := by
  simp [isPySpace, pyWhitespaceCodes]
  omega

theorem isPySpace_toUpper (c : Char) : isPySpace (Char.toUpper c) = isPySpace c := by
  by_cases h : 97 ≤ c.toNat ∧ c.toNat ≤ 122
  · have ht := toUpper_toNat_of_lower h
    rw [isPySpace_eq_false_of_range (by omega),
      isPySpace_eq_false_of_range (by omega)]
  · rw [toUpper_eq_self_of_not_lower h]

theorem isCombining_eq_false_of_le {c : Char} (h : c.toNat ≤ 122) :
    isCombining c = false := by
  simp [isCombining]
  omega

theorem isCombining_toUpper (c : Char) :
    isCombining (Char.toUpper c) = isCombining c := by
  by_cases h : 97 ≤ c.toNat ∧ c.toNat ≤ 122
  · have ht := toUpper_toNat_of_lower h
    rw [isCombining_eq_false_of_le (by omega), isCombining_eq_false_of_le (by omega)]
  · rw [toUpper_eq_self_of_not_lower h]

/-! ## Helper lemmas: canonical stability (for idempotence) -/

theorem nfdChar_eq_self_of_lt {c : Char} (h : c.toNat < 192) : nfdChar c = [c] := by
  unfold nfdChar
  cases hfind : nfdTable.find? (fun p => p.1 == c) with
  | none => rfl
  | some pr =>
    exfalso
    have hmem := List.mem_of_find?_eq_some hfind
    have hbeq := List.find?_some hfind
    rw [beq_iff_eq] at hbeq
    have hge : 192 ≤ pr.1.toNat :=
      (by decide : ∀ p ∈ nfdTable, 192 ≤ p.1.toNat) pr hmem
    rw [hbeq] at hge
    omega

theorem nfdChar_mem_spec (c : Char) :
    ∀ d ∈ nfdChar c, isCombining d = true ∨ nfdChar d = [d] := by
  intro d hd
  unfold nfdChar at hd
  cases hfind : nfdTable.find? (fun p => p.1 == c) with
  | none =>
    rw [hfind] at hd
    simp at hd
    subst hd
    right
    unfold nfdChar
    rw [hfind]
    rfl
  | some pr =>
    rw [hfind] at hd
    simp at hd
    have hmem := List.mem_of_find?_eq_some hfind
    have hval := (by decide :
      ∀ p ∈ nfdTable, ∀ d ∈ p.2, isCombining d = true ∨ d.toNat < 192) pr hmem d hd
    rcases hval with hval | hval
    · exact Or.inl hval
    · exact Or.inr (nfdChar_eq_self_of_lt hval)

theorem nfdChar_toUpper_of_stable {c : Char} (h : nfdChar c = [c]) :
    nfdChar (Char.toUpper c) = [Char.toUpper c] := by
  by_cases hl : 97 ≤ c.toNat ∧ c.toNat ≤ 122
  · have ht := toUpper_toNat_of_lower hl
    exact nfdChar_eq_self_of_lt (by omega)
  · rw [toUpper_eq_self_of_not_lower hl]
    exact h

theorem flatMap_eq_self {l : List Char} {f : Char → List Char}
    (h : ∀ c ∈ l, f c = [c]) : l.flatMap f = l := by
  induction l with
  | nil => rfl
  | cons c t ih =>
    rw [List.flatMap_cons, h c (List.mem_cons_self _ _),
      ih (fun d hd => h d (List.mem_cons_of_mem _ hd))]
    rfl

theorem stripMarks_nfdStr_stable (s : List Char) :
    ∀ c ∈ stripMarks (nfdStr s), isCombining c = false ∧ nfdChar c = [c] := by
  intro c hc
  unfold stripMarks at hc
  rw [List.mem_filter] at hc
  obtain ⟨hmem, hpred⟩ := hc
  have hcomb : isCombining c = false := by
    simp at hpred
    exact hpred
  refine ⟨hcomb, ?_⟩
  unfold nfdStr at hmem
  rw [List.mem_flatMap] at hmem
  obtain ⟨d, _, hd⟩ := hmem
  rcases nfdChar_mem_spec d c hd with h | h
  · rw [h] at hcomb
    cases hcomb
  · exact h

/-- Every string of the shape produced by `normalize` is a fixed point of
each of its four passes. -/
theorem normalize_fixpoint {t : List Char}
    (hnfd : ∀ c ∈ t, nfdChar c = [c])
    (hmarks : ∀ c ∈ t, isCombining c = false)
    (hcollapse : collapseWs t = t)
    (hupper : upperStr t = t) :
    normalize (some t) = t := by
  show upperStr (collapseWs (stripMarks (nfdStr t))) = t
  rw [show nfdStr t = t from flatMap_eq_self hnfd,
    show stripMarks t = t from
      List.filter_eq_self.mpr (fun c hc => by rw [hmarks c hc]; rfl),
    hcollapse, hupper]

theorem mem_pyStrip {c : Char} {s : List Char} (h : c ∈ pyStrip s) : c ∈ s := by
  unfold pyStrip at h
  rw [List.mem_reverse] at h
  have h1 := (List.dropWhile_sublist isPySpace).subset h
  rw [List.mem_reverse] at h1
  exact (List.dropWhile_sublist isPySpace).subset h1

/-! ## Claim C9 -/

/-- C9: the text normalization of the generator is idempotent. -/
theorem C9_normalize_idempotent (s : List Char) :
    normalize (some (normalize (some s))) = normalize (some s) := by
  have hexpand : normalize (some s) = upperStr (pyJoin [' '] (normWords s)) := rfl
  have hwords' : ∀ w ∈ normWords s, w ≠ [] ∧ ∀ c ∈ w, isPySpace c = false :=
    pySplit_words (pyStrip (stripMarks (nfdStr s)))
  have hvchars := stripMarks_nfdStr_stable s
  have ht : normalize (some s) = pyJoin [' '] ((normWords s).map upperStr) := by
    rw [hexpand, upperStr_pyJoin]
  have hwords2 : ∀ w ∈ (normWords s).map upperStr,
      w ≠ [] ∧ ∀ c ∈ w, isPySpace c = false := by
    intro w hw
    rw [List.mem_map] at hw
    obtain ⟨w0, hw0, hmap⟩ := hw
    obtain ⟨hne, hfc⟩ := hwords' w0 hw0
    subst hmap
    constructor
    · intro hnil
      exact hne (by rwa [show upperStr w0 = List.map Char.toUpper w0 from rfl,
        List.map_eq_nil_iff] at hnil)
    · intro c hc
      rw [show upperStr w0 = List.map Char.toUpper w0 from rfl, List.mem_map] at hc
      obtain ⟨c0, hc0, hcu⟩ := hc
      subst hcu
      rw [isPySpace_toUpper, hfc c0 hc0]
  have htchars : ∀ c ∈ normalize (some s), nfdChar c = [c] ∧ isCombining c = false := by
    intro c hc
    rw [hexpand, show upperStr (pyJoin [' '] (normWords s)) =
      List.map Char.toUpper (pyJoin [' '] (normWords s)) from rfl,
      List.mem_map] at hc
    obtain ⟨c0, hc0, hcu⟩ := hc
    subst hcu
    rcases mem_pyJoin (normWords s) hc0 with ⟨w, hw, hcw⟩ | hsep
    · have hwsp : w ∈ (pyStrip (stripMarks (nfdStr s))).splitOnP isPySpace :=
        (List.mem_filter.1 hw).1
      have h1 : c0 ∈ pyStrip (stripMarks (nfdStr s)) :=
        splitOnP_group_subset _ w hwsp c0 hcw
      obtain ⟨hcomb0, hstable0⟩ := hvchars c0 (mem_pyStrip h1)
      exact ⟨nfdChar_toUpper_of_stable hstable0,
        by rw [isCombining_toUpper, hcomb0]⟩
    · rw [show c0 = ' ' from by simpa using hsep]
      constructor <;> decide
  have hcollapse : collapseWs (normalize (some s)) = normalize (some s) := by
    show pyJoin [' '] (pySplit (pyStrip (normalize (some s)))) = normalize (some s)
    rw [pySplit_pyStrip, ht, pySplit_pyJoin _ hwords2]
  have hupper : upperStr (normalize (some s)) = normalize (some s) := by
    rw [hexpand]
    show upperStr (upperStr (pyJoin [' '] (normWords s))) = _
    unfold upperStr
    rw [List.map_map]
    exact List.map_congr_left (fun c _ => by
      simp only [Function.comp_apply]
      exact toUpper_idem c)
  exact normalize_fixpoint (fun c hc => (htchars c hc).1)
    (fun c hc => (htchars c hc).2) hcollapse hupper

/-! ## Reference vectors

Concrete evaluations of the embedding, matching the output of the Python
source on the same inputs (the FNV offset basis on the empty string, the
test vector of spec section 8, diacritic collapse and whitespace collapse,
and the code for empty metadata used by the concrete form states above). -/

theorem reference_fnv_empty : fnv1a32 ("".data.map Char.toNat) = 2166136261 := by decide

theorem reference_fnv_abc : fnv1a32 ("abc".data.map Char.toNat) = 440920331 := by decide

theorem reference_normalize_diacritics :
    normalize (some "Bogotá".data) = "BOGOTA".data := by decide

theorem reference_normalize_whitespace :
    normalize (some "  a\tb  ".data) = "A B".data := by decide

theorem reference_code_empty_meta :
    six_digit_code_from_fields (some []) (some []) (some []) (some []) =
      "018996".data := by decide

theorem reference_code_spec_vector :
    six_digit_code_from_fields (some "A1".data) (some "Bogotá".data)
      (some "900.123-4".data) (some "Acme S.A.S.".data) = "535492".data := by decide

theorem reference_nit_digits :
    onlyDigits "900.123-4".data = "9001234".data := by decide

end Forms
